import Mathlib

/-!
Shallow embedding of the `automation-stack` service (`src/python/app/main.py`).

The service is a stateless FastAPI app with two nontrivial handlers:

* `POST /data/transform` (`transform_data`): applies an ordered list of named
  operations (`filter_null`, `deduplicate`, `sort_by_key`, `uppercase_values`,
  `lowercase_values`) to a list of JSON records, failing with HTTP 400 on an
  unknown operation name, a missing/empty `sort_key`, or a sort comparison
  failure.
* `POST /web/fetch` (`fetch_url`): performs one outbound HTTP call and reshapes
  the response into an envelope whose `success` flag is `status_code < 400`.

JSON scalar values are modelled by `Value` (numbers as `Int`; the claims under
study do not involve float-specific behaviour).  A Python dict is modelled as
an insertion-ordered association list `Record`; genuine dicts have no duplicate
keys, which is the `nodupKeys` side condition used where key uniqueness
matters.  Python's comparison semantics at the sort key are modelled by
`vkey`/`vle` (booleans compare as the integers 0/1, so `True` ties with `1`)
together with the comparability classes `valClass` (numeric-like and string;
`None` is comparable with nothing, itself included).  CPython's `sorted`
raises `TypeError` exactly when it performs a cross-class comparison, which
for a list of length ≥ 2 happens iff not all elements lie in one comparability
class; `sortOk` captures that success domain, and on it `sorted` is a stable
merge sort, embedded by `List.mergeSort`.  The `deduplicate` set stores
`tuple(sorted(item.items()))` and tests membership with Python `==`/`hash`,
under which a boolean coincides with its numeric value (`True == 1`,
`False == 0`); `dedupKey` — each key paired with the comparison measure of its
value — captures exactly that identification.
-/

namespace AutomationStack

instance {ε α : Type} [DecidableEq ε] [DecidableEq α] : DecidableEq (Except ε α)
  | .error e, .error f =>
    if h : e = f then .isTrue (congrArg Except.error h)
    else .isFalse fun he => h (Except.error.inj he)
  | .error _, .ok _ => .isFalse fun he => Except.noConfusion he
  | .ok _, .error _ => .isFalse fun he => Except.noConfusion he
  | .ok x, .ok y =>
    if h : x = y then .isTrue (congrArg Except.ok h)
    else .isFalse fun he => h (Except.ok.inj he)

/-- Scalar-or-null JSON value, as accepted by the transform endpoint. -/
inductive Value where
  | vnull : Value
  | vbool : Bool → Value
  | vnum : Int → Value
  | vstr : String → Value
  deriving DecidableEq, Repr

/-- One JSON object: an insertion-ordered mapping from string keys to values. -/
abbrev Record := List (String × Value)

/-- The transform payload: an ordered list of records. -/
abbrev Batch := List Record

/-- A record models a Python dict when its keys are pairwise distinct. -/
def nodupKeys (r : Record) : Prop := (r.map Prod.fst).Nodup

instance (r : Record) : Decidable (nodupKeys r) := by
  unfold nodupKeys; infer_instance

/-! ### Python value comparison at the sort key -/

/-- Code points of a string; Python compares strings lexicographically by
code point. -/
def strKey (s : String) : List Nat := s.data.map fun c => c.toNat

/-- Lexicographic `≤` on code-point lists. -/
def natListLe : List Nat → List Nat → Bool
  | [], _ => true
  | _ :: _, [] => false
  | a :: as, b :: bs => decide (a < b) || (decide (a = b) && natListLe as bs)

/-- Comparison measure: Python orders booleans and numbers together (`True`
compares as `1`, `False` as `0`) and strings lexicographically; the leading
component is the comparability class rank. -/
def vkey : Value → Nat × Int × List Nat
  | .vnull => (0, 0, [])
  | .vbool x => (1, if x then 1 else 0, [])
  | .vnum n => (1, n, [])
  | .vstr s => (2, 0, strKey s)

/-- Lexicographic `≤` on comparison measures. -/
def tripLe (x y : Nat × Int × List Nat) : Bool :=
  decide (x.1 < y.1) ||
    (decide (x.1 = y.1) &&
      (decide (x.2.1 < y.2.1) || (decide (x.2.1 = y.2.1) && natListLe x.2.2 y.2.2)))

/-- Python's `≤` between two comparable values, extended to a total relation. -/
def vle (a b : Value) : Bool := tripLe (vkey a) (vkey b)

/-- Comparability class of a value: `none` for null (Python's `None` supports
no order comparison, not even with itself), numeric-like (`bool`, `int`), or
string. -/
def valClass : Value → Option Nat
  | .vnull => none
  | .vbool _ => some 1
  | .vnum _ => some 1
  | .vstr _ => some 2

/-- Whether Python can order-compare `a` and `b` without a `TypeError`. -/
def comparableB (a b : Value) : Bool :=
  (valClass a).isSome && (valClass a == valClass b)

/-! ### The five transform operations -/

/-- Predicate of the `filter_null` list comprehension: keep an item iff every
value is non-null and not the empty string (`all(v is not None and v != "" ...)`). -/
def keepRecord (r : Record) : Bool :=
  r.all fun p => !(p.2 == Value.vnull) && !(p.2 == Value.vstr "")

/-- The `filter_null` operation. -/
def filterNull (b : Batch) : Batch := b.filter keepRecord

/-- Key-wise `≤` on record entries, as used by `tuple(sorted(item.items()))`:
Python compares the `(key, value)` tuples, and since a dict's keys are
distinct the comparison is decided by the string keys alone. -/
def pairLe (p q : String × Value) : Bool := natListLe (strKey p.1) (strKey q.1)

/-- Ordered insertion of an entry into a key-sorted entry list. -/
def insertRec (p : String × Value) : Record → Record
  | [] => [p]
  | q :: t => if pairLe p q then p :: q :: t else q :: insertRec p t

/-- Insertion sort of a record's entries by key. -/
def sortRec : Record → Record
  | [] => []
  | p :: t => insertRec p (sortRec t)

/-- Entry list of `sorted(item.items())`: the record's entries sorted by key.
(On genuine dicts the keys are distinct, so the sorted entry list is unique
and the choice of sorting algorithm is immaterial.) -/
def canon (r : Record) : Record := sortRec r

/-- Identity of one `(key, value)` pair inside the `seen` set of tuples:
Python's `set` compares with `==`/`hash`, and on this scalar domain `==`
identifies a value exactly with its comparison measure (`True == 1`,
`False == 0`, `None` equal only to itself, numbers and strings as usual), so
the pair's identity is the key together with `vkey` of the value. -/
def entryKey (p : String × Value) : String × (Nat × Int × List Nat) := (p.1, vkey p.2)

/-- Identity of the hashable representation `tuple(sorted(item.items()))`
under Python `==`/`hash`: equality of these lists coincides with Python tuple
equality of the sorted item tuples. -/
def dedupKey (r : Record) : List (String × (Nat × Int × List Nat)) :=
  (canon r).map entryKey

/-- Loop body of `deduplicate`: `seen` accumulates the identities of the item
tuples of the records kept so far; a record whose item tuple was already seen
(under Python `==`, which identifies booleans with their numeric values) is
dropped. -/
def dedupAux : Batch → List (List (String × (Nat × Int × List Nat))) → Batch
  | [], _ => []
  | r :: rest, seen =>
    if dedupKey r ∈ seen then dedupAux rest seen
    else r :: dedupAux rest (dedupKey r :: seen)

/-- The `deduplicate` operation. -/
def deduplicate (b : Batch) : Batch := dedupAux b []

/-- Sort key extraction `item.get(sort_key, "")`: the value at the key, or the
empty string when the record lacks the key. -/
def keyOf (k : String) (r : Record) : Value := (r.lookup k).getD (Value.vstr "")

/-- Record comparison used by `sorted(result, key=lambda x: x.get(sort_key, ""))`. -/
def recLe (k : String) (r s : Record) : Bool := vle (keyOf k r) (keyOf k s)

/-- Success domain of CPython's `sorted` on the extracted keys: with at most
one element no comparison happens; otherwise every pair of extracted keys must
be order-comparable (one shared comparability class, no nulls). -/
def sortOk (k : String) (b : Batch) : Bool :=
  decide (b.length ≤ 1) ||
    b.all fun r => b.all fun s => comparableB (keyOf k r) (keyOf k s)

/-- An error response raised via `HTTPException(status_code, detail)`. -/
structure HTTPError where
  status : Nat
  detail : String
  deriving DecidableEq, Repr

/-- The `sort_by_key` operation body (with a non-empty key `k` already in
hand): Python's stable `sorted` on success, and the HTTP 400
`Cannot sort by key ...` error when the key comparison raises.  (The Python
detail string also interpolates the exception text, which has no counterpart
in this model.) -/
def sortByKey (k : String) (b : Batch) : Except HTTPError Batch :=
  if sortOk k b then .ok (b.mergeSort (recLe k))
  else .error ⟨400, "Cannot sort by key " ++ k⟩

/-- `str.upper()` on string values, identity elsewhere.  (Lean's `toUpper` is
ASCII-only whereas Python's `str.upper()` is full Unicode; the properties
verified here concern only batch lengths and error statuses, never
case-converted content.) -/
def upperValue : Value → Value
  | .vstr s => .vstr s.toUpper
  | v => v

/-- `str.lower()` on string values, identity elsewhere.  (Same ASCII-only
caveat as `upperValue`.) -/
def lowerValue : Value → Value
  | .vstr s => .vstr s.toLower
  | v => v

/-- The `uppercase_values` operation. -/
def uppercaseValues (b : Batch) : Batch :=
  b.map fun r => r.map fun p => (p.1, upperValue p.2)

/-- The `lowercase_values` operation. -/
def lowercaseValues (b : Batch) : Batch :=
  b.map fun r => r.map fun p => (p.1, lowerValue p.2)

/-! ### The transform pipeline -/

/-- Body of `POST /data/transform`. -/
structure DataTransformRequest where
  data : Batch
  operations : List String
  sort_key : Option String

/-- Python truthiness test `if not request.sort_key`: the key is missing when
it is absent or the empty string. -/
def sortKeyMissing : Option String → Bool
  | none => true
  | some s => s == ""

/-- One iteration of the `for operation in request.operations` loop. -/
def applyOp (sk : Option String) (op : String) (b : Batch) : Except HTTPError Batch :=
  if op == "filter_null" then .ok (filterNull b)
  else if op == "deduplicate" then .ok (deduplicate b)
  else if op == "sort_by_key" then
    if sortKeyMissing sk then
      .error ⟨400, "sort_key parameter required for sort_by_key operation"⟩
    else sortByKey (sk.getD "") b
  else if op == "uppercase_values" then .ok (uppercaseValues b)
  else if op == "lowercase_values" then .ok (lowercaseValues b)
  else .error ⟨400, "Unknown operation: " ++ op⟩

/-- The five operation names the handler recognises. -/
def isSupported (op : String) : Bool :=
  op == "filter_null" || op == "deduplicate" || op == "sort_by_key" ||
    op == "uppercase_values" || op == "lowercase_values"

/-- The operation loop: each operation consumes the previous output; the first
`HTTPException` aborts the whole pipeline. -/
def runOps (sk : Option String) : List String → Batch → Except HTTPError Batch
  | [], b => .ok b
  | op :: rest, b =>
    match applyOp sk op b with
    | .ok b' => runOps sk rest b'
    | .error e => .error e

/-- Successful response body of `POST /data/transform`. -/
structure TransformResponse where
  original_count : Nat
  result_count : Nat
  operations_applied : List String
  data : Batch
  deriving DecidableEq, Repr

/-- The `transform_data` handler. -/
def transform_data (req : DataTransformRequest) : Except HTTPError TransformResponse :=
  match runOps req.sort_key req.operations req.data with
  | .ok res => .ok ⟨req.data.length, res.length, req.operations, res⟩
  | .error e => .error e

/-! ### The fetch proxy's result envelope -/

/-- What the outbound HTTP client hands back to `fetch_url`: status, headers,
raw text, and the result of attempting `response.json()` (`some` iff the body
parses as JSON). -/
structure RawResponse where
  status_code : Nat
  headers : List (String × String)
  text : String
  json : Option Value

/-- Body content of a fetch response: parsed JSON or raw text. -/
inductive FetchContent where
  | json : Value → FetchContent
  | text : String → FetchContent
  deriving DecidableEq, Repr

/-- Successful response body of `POST /web/fetch`. -/
structure FetchResult where
  url : String
  status_code : Nat
  content_type : String
  duration_seconds : Int
  response_headers : List (String × String)
  content : FetchContent
  success : Bool
  deriving DecidableEq, Repr

/-- Pure tail of the `fetch_url` handler: given the client's response (and the
measured duration), build the result envelope, preferring the JSON parse and
falling back to raw text, with `success = status_code < 400`. -/
def buildFetchResult (url : String) (duration : Int) (resp : RawResponse) : FetchResult :=
  { url := url
    status_code := resp.status_code
    content_type := if resp.json.isSome then "json" else "text"
    duration_seconds := duration
    response_headers := resp.headers
    content :=
      match resp.json with
      | some v => FetchContent.json v
      | none => FetchContent.text resp.text
    success := decide (resp.status_code < 400) }

/-! ### Spec-side definitions used to state the claims -/

/-- Strict key order on record entries: the relation in which a record with
pairwise-distinct keys is sorted after canonicalisation. -/
def pairKeyLt (p q : String × Value) : Prop := pairLe p q = true ∧ p.1 ≠ q.1

/-- Two records count as duplicates when they carry the same set of
`(key, value)` pairs, regardless of key insertion order.  (Formalisation of
the spec's duplicate criterion.) -/
def sameSet (r s : Record) : Prop :=
  (∀ p ∈ r, p ∈ s) ∧ (∀ p ∈ s, p ∈ r)

instance (r s : Record) : Decidable (sameSet r s) :=
  inferInstanceAs (Decidable ((∀ p ∈ r, p ∈ s) ∧ (∀ p ∈ s, p ∈ r)))

/-- Modelled from the spec's description of `deduplicate`: walk the batch in
order, keeping a record exactly when no earlier record (duplicate criterion:
`sameSet`) has been encountered; `prev` holds all records already walked.
Survivors therefore are the first occurrences, in their input order. -/
def specKeepFirsts : Batch → Batch → Batch
  | [], _ => []
  | r :: rest, prev =>
    if ∃ s ∈ prev, sameSet s r then specKeepFirsts rest (prev ++ [r])
    else r :: specKeepFirsts rest (prev ++ [r])

/-- Python scalar equality `==`: `None` equals only `None`, strings and
numbers compare as usual, and a boolean equals its numeric value
(`True == 1`, `False == 0`).  On this scalar domain that is exactly equality
of comparison measures. -/
def pyEq (a b : Value) : Prop := vkey a = vkey b

instance (a b : Value) : Decidable (pyEq a b) :=
  inferInstanceAs (Decidable (vkey a = vkey b))

/-- The program's duplicate criterion: the two records carry the same set of
`(key, value)` pairs up to Python equality (`==`) of the values. -/
def sameSetPy (r s : Record) : Prop :=
  (∀ p ∈ r, ∃ q ∈ s, p.1 = q.1 ∧ pyEq p.2 q.2) ∧
  (∀ q ∈ s, ∃ p ∈ r, p.1 = q.1 ∧ pyEq p.2 q.2)

instance (r s : Record) : Decidable (sameSetPy r s) :=
  inferInstanceAs
    (Decidable ((∀ p ∈ r, ∃ q ∈ s, p.1 = q.1 ∧ pyEq p.2 q.2) ∧
      (∀ q ∈ s, ∃ p ∈ r, p.1 = q.1 ∧ pyEq p.2 q.2)))

/-- First-occurrence scan with the program's duplicate criterion `sameSetPy`:
keep a record exactly when no earlier record is a duplicate of it under
Python equality of values; survivors keep their input order. -/
def specKeepFirstsPy : Batch → Batch → Batch
  | [], _ => []
  | r :: rest, prev =>
    if ∃ s ∈ prev, sameSetPy s r then specKeepFirstsPy rest (prev ++ [r])
    else r :: specKeepFirstsPy rest (prev ++ [r])

/-- Strict key order on dedup-key entries, mirroring `pairKeyLt`. -/
def entryKeyLt (x y : String × (Nat × Int × List Nat)) : Prop :=
  natListLe (strKey x.1) (strKey y.1) = true ∧ x.1 ≠ y.1

/-! ### Order lemmas for the comparison embedding -/

theorem natListLe_refl : ∀ x, natListLe x x = true
  | [] => rfl
  | a :: as => by simp [natListLe, natListLe_refl as]

theorem natListLe_total : ∀ x y, natListLe x y = true ∨ natListLe y x = true
  | [], _ => Or.inl rfl
  | _ :: _, [] => Or.inr rfl
  | a :: as, b :: bs => by
    rcases Nat.lt_trichotomy a b with h | h | h
    · exact Or.inl (by simp [natListLe, h])
    · subst h
      rcases natListLe_total as bs with ih | ih
      · exact Or.inl (by simp [natListLe, ih])
      · exact Or.inr (by simp [natListLe, ih])
    · exact Or.inr (by simp [natListLe, h])

theorem natListLe_trans :
    ∀ {x y z}, natListLe x y = true → natListLe y z = true → natListLe x z = true
  | [], _, _, _, _ => rfl
  | _ :: _, [], _, h1, _ => by simp [natListLe] at h1
  | _ :: _, _ :: _, [], _, h2 => by simp [natListLe] at h2
  | a :: as, b :: bs, c :: cs, h1, h2 => by
    simp only [natListLe, Bool.or_eq_true, Bool.and_eq_true, decide_eq_true_eq] at h1 h2 ⊢
    rcases h1 with h1 | ⟨h1e, h1r⟩ <;> rcases h2 with h2 | ⟨h2e, h2r⟩
    · exact Or.inl (by omega)
    · exact Or.inl (by omega)
    · exact Or.inl (by omega)
    · exact Or.inr ⟨by omega, natListLe_trans h1r h2r⟩

theorem natListLe_antisymm : ∀ {x y}, natListLe x y = true → natListLe y x = true → x = y
  | [], [], _, _ => rfl
  | [], _ :: _, _, h2 => by simp [natListLe] at h2
  | _ :: _, [], h1, _ => by simp [natListLe] at h1
  | a :: as, b :: bs, h1, h2 => by
    simp only [natListLe, Bool.or_eq_true, Bool.and_eq_true, decide_eq_true_eq] at h1 h2
    rcases h1 with h1 | ⟨h1e, h1r⟩ <;> rcases h2 with h2 | ⟨h2e, h2r⟩
    · omega
    · omega
    · omega
    · rw [h1e, natListLe_antisymm h1r h2r]

theorem strKey_inj {s t : String} (h : strKey s = strKey t) : s = t := by
  apply String.ext
  have hinj : Function.Injective fun c : Char => c.toNat := fun c d hcd => by
    rw [← Char.ofNat_toNat c, ← Char.ofNat_toNat d]
    exact congrArg Char.ofNat hcd
  exact List.map_injective_iff.mpr hinj h

theorem tripLe_iff {x y : Nat × Int × List Nat} :
    tripLe x y = true ↔
      x.1 < y.1 ∨ x.1 = y.1 ∧ (x.2.1 < y.2.1 ∨ x.2.1 = y.2.1 ∧ natListLe x.2.2 y.2.2 = true) := by
  simp [tripLe, Bool.or_eq_true, Bool.and_eq_true, decide_eq_true_eq]

theorem tripLe_total (x y : Nat × Int × List Nat) : tripLe x y = true ∨ tripLe y x = true := by
  rw [tripLe_iff, tripLe_iff]
  rcases Nat.lt_trichotomy x.1 y.1 with h | h | h
  · exact Or.inl (Or.inl h)
  · rcases lt_trichotomy x.2.1 y.2.1 with h' | h' | h'
    · exact Or.inl (Or.inr ⟨h, Or.inl h'⟩)
    · rcases natListLe_total x.2.2 y.2.2 with h'' | h''
      · exact Or.inl (Or.inr ⟨h, Or.inr ⟨h', h''⟩⟩)
      · exact Or.inr (Or.inr ⟨h.symm, Or.inr ⟨h'.symm, h''⟩⟩)
    · exact Or.inr (Or.inr ⟨h.symm, Or.inl h'⟩)
  · exact Or.inr (Or.inl h)

theorem tripLe_trans {x y z : Nat × Int × List Nat}
    (h1 : tripLe x y = true) (h2 : tripLe y z = true) : tripLe x z = true := by
  rw [tripLe_iff] at h1 h2 ⊢
  rcases h1 with h1 | ⟨h1e, h1r⟩ <;> rcases h2 with h2 | ⟨h2e, h2r⟩
  · exact Or.inl (by omega)
  · exact Or.inl (by omega)
  · exact Or.inl (by omega)
  · refine Or.inr ⟨by omega, ?_⟩
    rcases h1r with h1r | ⟨h1re, h1rr⟩ <;> rcases h2r with h2r | ⟨h2re, h2rr⟩
    · exact Or.inl (by omega)
    · exact Or.inl (by omega)
    · exact Or.inl (by omega)
    · exact Or.inr ⟨by omega, natListLe_trans h1rr h2rr⟩

theorem tripLe_refl (x : Nat × Int × List Nat) : tripLe x x = true := by
  rw [tripLe_iff]
  exact Or.inr ⟨rfl, Or.inr ⟨rfl, natListLe_refl _⟩⟩

theorem vle_total (a b : Value) : vle a b = true ∨ vle b a = true := tripLe_total _ _

theorem vle_trans {a b c : Value} (h1 : vle a b = true) (h2 : vle b c = true) :
    vle a c = true := tripLe_trans h1 h2

theorem vle_of_vkey_eq {a b : Value} (h : vkey a = vkey b) : vle a b = true := by
  rw [vle, h]; exact tripLe_refl _

theorem pairLe_total (p q : String × Value) : pairLe p q = true ∨ pairLe q p = true :=
  natListLe_total _ _

theorem pairLe_trans {p q r : String × Value}
    (h1 : pairLe p q = true) (h2 : pairLe q r = true) : pairLe p r = true :=
  natListLe_trans h1 h2

theorem pairLe_antisymm_keys {p q : String × Value}
    (h1 : pairLe p q = true) (h2 : pairLe q p = true) : p.1 = q.1 :=
  strKey_inj (natListLe_antisymm h1 h2)

/-! ### Canonicalisation lemmas -/

theorem insertRec_perm (p : String × Value) : ∀ l : Record, List.Perm (insertRec p l) (p :: l)
  | [] => List.Perm.refl _
  | q :: t => by
    rw [insertRec]
    by_cases h : pairLe p q = true
    · rw [if_pos h]
    · rw [if_neg h]
      exact ((insertRec_perm p t).cons q).trans (List.Perm.swap p q t)

theorem mem_insertRec {x p : String × Value} {l : Record} :
    x ∈ insertRec p l ↔ x = p ∨ x ∈ l := by
  rw [(insertRec_perm p l).mem_iff, List.mem_cons]

theorem insertRec_pairwise {p : String × Value} :
    ∀ {l : Record}, l.Pairwise (fun x y => pairLe x y = true) →
      (insertRec p l).Pairwise (fun x y => pairLe x y = true)
  | [], _ => by simp [insertRec]
  | q :: t, h => by
    rw [insertRec]
    by_cases hpq : pairLe p q = true
    · rw [if_pos hpq]
      refine h.cons fun x hx => ?_
      rcases List.mem_cons.mp hx with rfl | hx
      · exact hpq
      · exact pairLe_trans hpq (List.rel_of_pairwise_cons h hx)
    · rw [if_neg hpq]
      have hqp : pairLe q p = true := (pairLe_total p q).resolve_left hpq
      refine (insertRec_pairwise h.tail).cons fun x hx => ?_
      rcases mem_insertRec.mp hx with rfl | hx
      · exact hqp
      · exact List.rel_of_pairwise_cons h hx

theorem sortRec_perm : ∀ r : Record, List.Perm (sortRec r) r
  | [] => List.Perm.refl _
  | p :: t => by
    rw [sortRec]
    exact (insertRec_perm p (sortRec t)).trans ((sortRec_perm t).cons p)

theorem sortRec_pairwise : ∀ r : Record, (sortRec r).Pairwise fun x y => pairLe x y = true
  | [] => List.Pairwise.nil
  | _ :: t => insertRec_pairwise (sortRec_pairwise t)

theorem canon_perm (r : Record) : List.Perm (canon r) r := sortRec_perm r

theorem mem_canon {x : String × Value} {r : Record} : x ∈ canon r ↔ x ∈ r :=
  (canon_perm r).mem_iff

theorem canon_nodupKeys {r : Record} (h : nodupKeys r) : nodupKeys (canon r) := by
  unfold nodupKeys at h ⊢
  exact (((canon_perm r).map Prod.fst).nodup_iff).mpr h

theorem canon_pairwise_keyLt {r : Record} (h : nodupKeys r) :
    (canon r).Pairwise pairKeyLt := by
  have h1 : (canon r).Pairwise fun x y => pairLe x y = true := sortRec_pairwise r
  have h2 : (canon r).Pairwise fun x y => x.1 ≠ y.1 :=
    List.pairwise_map.mp (canon_nodupKeys h)
  exact (h1.and h2).imp fun hx => hx

theorem canon_eq_canon_iff {r s : Record} (hr : nodupKeys r) (hs : nodupKeys s) :
    canon r = canon s ↔ ∀ p : String × Value, p ∈ r ↔ p ∈ s := by
  constructor
  · intro h p
    rw [← mem_canon, ← @mem_canon p s, h]
  · intro h
    have hnr : r.Nodup := List.Nodup.of_map Prod.fst hr
    have hns : s.Nodup := List.Nodup.of_map Prod.fst hs
    have hperm : List.Perm r s := (List.perm_ext_iff_of_nodup hnr hns).mpr h
    have hperm' : List.Perm (canon r) (canon s) :=
      (canon_perm r).trans (hperm.trans (canon_perm s).symm)
    haveI : IsAntisymm (String × Value) pairKeyLt :=
      ⟨fun _ _ h1 h2 => absurd (pairLe_antisymm_keys h1.1 h2.1) h1.2⟩
    exact List.eq_of_perm_of_sorted hperm' (canon_pairwise_keyLt hr) (canon_pairwise_keyLt hs)

/-! ### Deduplication lemmas -/

theorem dedupAux_length : ∀ (l : Batch) (seen : List (List (String × (Nat × Int × List Nat)))),
    (dedupAux l seen).length ≤ l.length
  | [], _ => Nat.le_refl _
  | r :: rest, seen => by
    rw [dedupAux]
    by_cases h : dedupKey r ∈ seen
    · rw [if_pos h]
      exact (dedupAux_length rest seen).trans (Nat.le_succ _)
    · rw [if_neg h]
      exact Nat.succ_le_succ (dedupAux_length rest _)

theorem dedupAux_dedupAux : ∀ (l : Batch) (seen : List (List (String × (Nat × Int × List Nat)))),
    dedupAux (dedupAux l seen) seen = dedupAux l seen
  | [], _ => rfl
  | r :: rest, seen => by
    rw [dedupAux]
    by_cases h : dedupKey r ∈ seen
    · rw [if_pos h]
      exact dedupAux_dedupAux rest seen
    · rw [if_neg h, dedupAux, if_neg h, dedupAux_dedupAux rest (dedupKey r :: seen)]

theorem canon_eq_iff_sameSet {r s : Record} (hr : nodupKeys r) (hs : nodupKeys s) :
    canon r = canon s ↔ sameSet r s := by
  rw [canon_eq_canon_iff hr hs]
  constructor
  · intro h
    exact ⟨fun p hp => (h p).mp hp, fun p hp => (h p).mpr hp⟩
  · intro h p
    exact ⟨fun hp => h.1 p hp, fun hp => h.2 p hp⟩

theorem mem_dedupKey {x : String × (Nat × Int × List Nat)} {r : Record} :
    x ∈ dedupKey r ↔ ∃ p ∈ r, entryKey p = x := by
  simp only [dedupKey, List.mem_map]
  constructor
  · rintro ⟨p, hp, he⟩
    exact ⟨p, mem_canon.mp hp, he⟩
  · rintro ⟨p, hp, he⟩
    exact ⟨p, mem_canon.mpr hp, he⟩

theorem dedupKey_map_fst (r : Record) :
    (dedupKey r).map Prod.fst = (canon r).map Prod.fst := by
  rw [dedupKey, List.map_map]
  rfl

theorem dedupKey_nodup {r : Record} (h : nodupKeys r) : (dedupKey r).Nodup :=
  List.Nodup.of_map Prod.fst (by rw [dedupKey_map_fst]; exact canon_nodupKeys h)

theorem dedupKey_pairwise {r : Record} (h : nodupKeys r) :
    (dedupKey r).Pairwise entryKeyLt := by
  rw [dedupKey, List.pairwise_map]
  exact (canon_pairwise_keyLt h).imp fun hx => ⟨hx.1, hx.2⟩

theorem dedupKey_eq_iff_sameSetPy {r s : Record} (hr : nodupKeys r) (hs : nodupKeys s) :
    dedupKey r = dedupKey s ↔ sameSetPy r s := by
  constructor
  · intro h
    constructor
    · intro p hp
      have hmem : entryKey p ∈ dedupKey s := by
        rw [← h]
        exact mem_dedupKey.mpr ⟨p, hp, rfl⟩
      obtain ⟨q, hq, he⟩ := mem_dedupKey.mp hmem
      have he1 := congrArg Prod.fst he
      have he2 := congrArg Prod.snd he
      have h1 : q.1 = p.1 := he1
      have h2 : vkey q.2 = vkey p.2 := he2
      exact ⟨q, hq, h1.symm, h2.symm⟩
    · intro q hq
      have hmem : entryKey q ∈ dedupKey r := by
        rw [h]
        exact mem_dedupKey.mpr ⟨q, hq, rfl⟩
      obtain ⟨p, hp, he⟩ := mem_dedupKey.mp hmem
      have he1 := congrArg Prod.fst he
      have he2 := congrArg Prod.snd he
      have h1 : p.1 = q.1 := he1
      have h2 : vkey p.2 = vkey q.2 := he2
      exact ⟨p, hp, h1, h2⟩
  · intro hss
    have hmem : ∀ x, x ∈ dedupKey r ↔ x ∈ dedupKey s := by
      intro x
      constructor
      · intro hx
        obtain ⟨p, hp, he⟩ := mem_dedupKey.mp hx
        obtain ⟨q, hq, h1, h2⟩ := hss.1 p hp
        refine mem_dedupKey.mpr ⟨q, hq, ?_⟩
        rw [← he]
        have h2e : vkey p.2 = vkey q.2 := h2
        show (q.1, vkey q.2) = (p.1, vkey p.2)
        rw [h1, h2e]
      · intro hx
        obtain ⟨q, hq, he⟩ := mem_dedupKey.mp hx
        obtain ⟨p, hp, h1, h2⟩ := hss.2 q hq
        refine mem_dedupKey.mpr ⟨p, hp, ?_⟩
        rw [← he]
        have h2e : vkey p.2 = vkey q.2 := h2
        show (p.1, vkey p.2) = (q.1, vkey q.2)
        rw [h1, h2e]
    have hperm : List.Perm (dedupKey r) (dedupKey s) :=
      (List.perm_ext_iff_of_nodup (dedupKey_nodup hr) (dedupKey_nodup hs)).mpr hmem
    haveI : IsAntisymm (String × (Nat × Int × List Nat)) entryKeyLt :=
      ⟨fun _ _ h1 h2 => absurd (strKey_inj (natListLe_antisymm h1.1 h2.1)) h1.2⟩
    exact List.eq_of_perm_of_sorted hperm (dedupKey_pairwise hr) (dedupKey_pairwise hs)

theorem dedupAux_eq_specKeepFirstsPy :
    ∀ (l prev : Batch) (seen : List (List (String × (Nat × Int × List Nat)))),
      (∀ r ∈ l, nodupKeys r) → (∀ s ∈ prev, nodupKeys s) →
      (∀ c ∈ seen, ∃ s ∈ prev, dedupKey s = c) →
      (∀ s ∈ prev, dedupKey s ∈ seen) →
      dedupAux l seen = specKeepFirstsPy l prev
  | [], _, _, _, _, _, _ => rfl
  | r :: rest, prev, seen, hl, hprev, hseen, hclosed => by
    have hr : nodupKeys r := hl r (List.mem_cons_self r rest)
    have hiff : dedupKey r ∈ seen ↔ ∃ s ∈ prev, sameSetPy s r := by
      constructor
      · intro h
        obtain ⟨s, hsmem, hceq⟩ := hseen _ h
        exact ⟨s, hsmem, (dedupKey_eq_iff_sameSetPy (hprev s hsmem) hr).mp hceq⟩
      · rintro ⟨s, hsmem, hss⟩
        have hkeq := (dedupKey_eq_iff_sameSetPy (hprev s hsmem) hr).mpr hss
        rw [← hkeq]
        exact hclosed s hsmem
    have hl' : ∀ x ∈ rest, nodupKeys x := fun x hx => hl x (List.mem_cons_of_mem r hx)
    have hprev' : ∀ s ∈ prev ++ [r], nodupKeys s := by
      intro s hsm
      rcases List.mem_append.mp hsm with hsm | hsm
      · exact hprev s hsm
      · rw [List.mem_singleton.mp hsm]; exact hr
    rw [dedupAux, specKeepFirstsPy]
    by_cases h : dedupKey r ∈ seen
    · rw [if_pos h, if_pos (hiff.mp h)]
      refine dedupAux_eq_specKeepFirstsPy rest (prev ++ [r]) seen hl' hprev' ?_ ?_
      · intro c hc
        obtain ⟨s, hsmem, hceq⟩ := hseen c hc
        exact ⟨s, List.mem_append_left _ hsmem, hceq⟩
      · intro s hsm
        rcases List.mem_append.mp hsm with hsm | hsm
        · exact hclosed s hsm
        · rw [List.mem_singleton.mp hsm]; exact h
    · rw [if_neg h, if_neg fun hex => h (hiff.mpr hex)]
      refine congrArg (r :: ·)
        (dedupAux_eq_specKeepFirstsPy rest (prev ++ [r]) (dedupKey r :: seen) hl' hprev' ?_ ?_)
      · intro c hc
        rcases List.mem_cons.mp hc with rfl | hc
        · exact ⟨r, List.mem_append_right _ (List.mem_singleton_self r), rfl⟩
        · obtain ⟨s, hsmem, hceq⟩ := hseen c hc
          exact ⟨s, List.mem_append_left _ hsmem, hceq⟩
      · intro s hsm
        rcases List.mem_append.mp hsm with hsm | hsm
        · exact List.mem_cons_of_mem _ (hclosed s hsm)
        · rw [List.mem_singleton.mp hsm]; exact List.mem_cons_self _ _

/-! ### Sorting lemmas -/

theorem recLe_total (k : String) (r s : Record) : (recLe k r s || recLe k s r) = true := by
  rcases vle_total (keyOf k r) (keyOf k s) with h | h <;> simp [recLe, h]

theorem recLe_trans (k : String) (r s t : Record)
    (h1 : recLe k r s = true) (h2 : recLe k s t = true) : recLe k r t = true :=
  vle_trans h1 h2

theorem sortByKey_ok {k : String} {b l : Batch} (h : sortByKey k b = .ok l) :
    l = b.mergeSort (recLe k) := by
  rw [sortByKey] at h
  split at h
  · exact (Except.ok.inj h).symm
  · exact Except.noConfusion h

theorem mergeSort_filter_eq (k : String) (b : Batch) (p : Record → Bool)
    (hp : ∀ r s, p r = true → p s = true → recLe k r s = true) :
    (b.mergeSort (recLe k)).filter p = b.filter p := by
  have hpair : (b.filter p).Pairwise fun r s => recLe k r s = true :=
    List.pairwise_of_forall_mem_list fun r hr s hs =>
      hp r s (List.of_mem_filter hr) (List.of_mem_filter hs)
  have hsub : List.Sublist (b.filter p) (b.mergeSort (recLe k)) :=
    List.sublist_mergeSort (fun x y z => recLe_trans k x y z) (recLe_total k)
      hpair (List.filter_sublist b)
  have hsub2 : List.Sublist ((b.filter p).filter p) ((b.mergeSort (recLe k)).filter p) :=
    hsub.filter p
  rw [List.filter_filter] at hsub2
  have hself : (b.filter fun a => p a && p a) = b.filter p := by
    simp [Bool.and_self]
  rw [hself] at hsub2
  have hperm : List.Perm ((b.mergeSort (recLe k)).filter p) (b.filter p) :=
    (List.mergeSort_perm b (recLe k)).filter p
  exact (hsub2.eq_of_length hperm.length_eq.symm).symm

theorem keyOf_of_not_mem {k : String} {r : Record} (h : k ∉ r.map Prod.fst) :
    keyOf k r = Value.vstr "" := by
  have hnone : r.lookup k = none := by
    rw [List.lookup_eq_none_iff]
    intro p hp
    simp only [bne_iff_ne, ne_eq]
    intro hkp
    exact h (List.mem_map.mpr ⟨p, hp, hkp.symm⟩)
  rw [keyOf, hnone]
  rfl

/-! ### Pipeline lemmas -/

theorem applyOp_unsupported {sk : Option String} {op : String} (b : Batch)
    (h : isSupported op = false) :
    applyOp sk op b = .error ⟨400, "Unknown operation: " ++ op⟩ := by
  simp only [isSupported, Bool.or_eq_false_iff] at h
  obtain ⟨⟨⟨⟨h1, h2⟩, h3⟩, h4⟩, h5⟩ := h
  simp [applyOp, h1, h2, h3, h4, h5]

theorem applyOp_error_status {sk : Option String} {op : String} {b : Batch} {e : HTTPError}
    (h : applyOp sk op b = .error e) : e.status = 400 := by
  rw [applyOp] at h
  split at h
  · exact Except.noConfusion h
  · split at h
    · exact Except.noConfusion h
    · split at h
      · split at h
        · cases Except.error.inj h; rfl
        · rw [sortByKey] at h
          split at h
          · exact Except.noConfusion h
          · cases Except.error.inj h; rfl
      · split at h
        · exact Except.noConfusion h
        · split at h
          · exact Except.noConfusion h
          · cases Except.error.inj h; rfl

theorem runOps_cons (sk : Option String) (op : String) (rest : List String) (b : Batch) :
    runOps sk (op :: rest) b =
      match applyOp sk op b with
      | .ok b' => runOps sk rest b'
      | .error e => .error e := rfl

theorem runOps_error_status :
    ∀ {ops : List String} {sk : Option String} {b : Batch} {e : HTTPError},
      runOps sk ops b = .error e → e.status = 400
  | [], _, _, _, h => Except.noConfusion h
  | op :: _, sk, b, _, h => by
    rw [runOps_cons] at h
    cases hA : applyOp sk op b with
    | ok b' => rw [hA] at h; exact runOps_error_status h
    | error e' => rw [hA] at h; cases Except.error.inj h; exact applyOp_error_status hA

theorem runOps_append (sk : Option String) :
    ∀ (l₁ l₂ : List String) (b : Batch),
      runOps sk (l₁ ++ l₂) b =
        match runOps sk l₁ b with
        | .ok b' => runOps sk l₂ b'
        | .error e => .error e
  | [], _, _ => rfl
  | op :: rest, l₂, b => by
    rw [List.cons_append, runOps_cons, runOps_cons]
    cases hA : applyOp sk op b with
    | ok b' => exact runOps_append sk rest l₂ b'
    | error e => rfl

theorem runOps_sort_missing :
    ∀ {ops : List String} {sk : Option String} (b : Batch),
      "sort_by_key" ∈ ops → sortKeyMissing sk = true →
      ∃ e, runOps sk ops b = .error e ∧ e.status = 400
  | [], _, _, hmem, _ => absurd hmem (List.not_mem_nil _)
  | op :: rest, sk, b, hmem, hmiss => by
    by_cases hop : op = "sort_by_key"
    · subst hop
      have hA : applyOp sk "sort_by_key" b =
          .error ⟨400, "sort_key parameter required for sort_by_key operation"⟩ := by
        rw [applyOp, if_neg (by decide), if_neg (by decide), if_pos (by decide),
          if_pos hmiss]
      rw [runOps_cons, hA]
      exact ⟨_, rfl, rfl⟩
    · have hmem' : "sort_by_key" ∈ rest := by
        rcases List.mem_cons.mp hmem with h | h
        · exact absurd h.symm hop
        · exact h
      rw [runOps_cons]
      cases hA : applyOp sk op b with
      | ok b' => exact runOps_sort_missing b' hmem' hmiss
      | error e => exact ⟨e, rfl, applyOp_error_status hA⟩

theorem runOps_unknown_mem :
    ∀ {ops : List String} {sk : Option String} (b : Batch) {op : String},
      op ∈ ops → isSupported op = false →
      ∃ e, runOps sk ops b = .error e ∧ e.status = 400
  | [], _, _, _, hmem, _ => absurd hmem (List.not_mem_nil _)
  | o :: rest, sk, b, op, hmem, hop => by
    cases hA : applyOp sk o b with
    | ok b' =>
      have ho : o ≠ op := by
        rintro rfl
        rw [applyOp_unsupported b hop] at hA
        exact Except.noConfusion hA
      have hmem' : op ∈ rest := by
        rcases List.mem_cons.mp hmem with h | h
        · exact absurd h.symm ho
        · exact h
      rw [runOps_cons, hA]
      exact runOps_unknown_mem b' hmem' hop
    | error e =>
      rw [runOps_cons, hA]
      exact ⟨e, rfl, applyOp_error_status hA⟩

theorem transform_data_error {req : DataTransformRequest} {e : HTTPError}
    (h : runOps req.sort_key req.operations req.data = .error e) :
    transform_data req = .error e := by
  rw [transform_data, h]

theorem applyOp_length {sk : Option String} {op : String} {b b' : Batch}
    (h : applyOp sk op b = .ok b') : b'.length ≤ b.length := by
  rw [applyOp] at h
  split at h
  · cases Except.ok.inj h
    exact List.length_filter_le _ _
  · split at h
    · cases Except.ok.inj h
      exact dedupAux_length b []
    · split at h
      · split at h
        · exact Except.noConfusion h
        · rw [sortByKey] at h
          split at h
          · cases Except.ok.inj h
            exact Nat.le_of_eq (List.mergeSort_perm b _).length_eq
          · exact Except.noConfusion h
      · split at h
        · cases Except.ok.inj h
          exact Nat.le_of_eq (List.length_map _ _)
        · split at h
          · cases Except.ok.inj h
            exact Nat.le_of_eq (List.length_map _ _)
          · exact Except.noConfusion h

theorem runOps_length :
    ∀ {ops : List String} {sk : Option String} {b res : Batch},
      runOps sk ops b = .ok res → res.length ≤ b.length
  | [], _, _, _, h => Nat.le_of_eq (congrArg List.length (Except.ok.inj h)).symm
  | op :: _, sk, b, res, h => by
    rw [runOps_cons] at h
    cases hA : applyOp sk op b with
    | ok b' =>
      rw [hA] at h
      exact (runOps_length h).trans (applyOp_length hA)
    | error e => rw [hA] at h; exact Except.noConfusion h

theorem applyOp_empty_key (op : String) (b : Batch) :
    applyOp (some "") op b = applyOp none op b := rfl

theorem runOps_empty_key : ∀ (ops : List String) (b : Batch),
    runOps (some "") ops b = runOps none ops b
  | [], _ => rfl
  | op :: rest, b => by
    rw [runOps_cons, runOps_cons, applyOp_empty_key]
    cases applyOp none op b with
    | ok b' => exact runOps_empty_key rest b'
    | error e => rfl

/-! ### Claim theorems -/

/-- Counterexample to C1 as literally stated: Python's `seen` set compares
item tuples with `==`/`hash`, under which `True == 1`, so the program drops
`{"a": true}` after `{"a": 1}` even though the two records do not carry the
same set of `(key, value)` pairs — `deduplicate` disagrees with the claim's
structural first-occurrence scan `specKeepFirsts` on this batch of genuine
dict records. -/
theorem deduplicate_counterexample :
    (∀ r ∈ ([[("a", Value.vnum 1)], [("a", Value.vbool true)]] : Batch), nodupKeys r) ∧
    deduplicate [[("a", Value.vnum 1)], [("a", Value.vbool true)]] =
      [[("a", Value.vnum 1)]] ∧
    specKeepFirsts [[("a", Value.vnum 1)], [("a", Value.vbool true)]] [] =
      [[("a", Value.vnum 1)], [("a", Value.vbool true)]] ∧
    deduplicate [[("a", Value.vnum 1)], [("a", Value.vbool true)]] ≠
      specKeepFirsts [[("a", Value.vnum 1)], [("a", Value.vbool true)]] [] :=
  ⟨by decide, by decide, by decide, by decide⟩

/-- Claim C1 (amended): on every Batch of genuine dict records
(pairwise-distinct keys), `deduplicate` keeps exactly the first occurrence of
each distinct record and drops every subsequent duplicate, where two records
are duplicates iff they carry the same set of `(key, value)` pairs up to
Python equality of values (`==` identifies `True` with `1` and `False` with
`0`) regardless of key insertion order, and survivors keep their relative
input order — the behaviour formalised by `specKeepFirstsPy`. -/
theorem deduplicate_keeps_first_occurrences (b : Batch) (h : ∀ r ∈ b, nodupKeys r) :
    deduplicate b = specKeepFirstsPy b [] :=
  dedupAux_eq_specKeepFirstsPy b [] [] h (by simp) (by simp) (by simp)

/-- Witness for C1 at a batch containing a key-permuted duplicate and a
bool/int collision. -/
theorem deduplicate_keeps_first_occurrences_witness :
    (∀ r ∈ ([[("a", Value.vnum 1), ("b", Value.vnum 2)],
             [("b", Value.vnum 2), ("a", Value.vbool true)],
             [("a", Value.vnum 1)]] : Batch), nodupKeys r) ∧
    deduplicate [[("a", Value.vnum 1), ("b", Value.vnum 2)],
                 [("b", Value.vnum 2), ("a", Value.vbool true)],
                 [("a", Value.vnum 1)]] =
      specKeepFirstsPy [[("a", Value.vnum 1), ("b", Value.vnum 2)],
                        [("b", Value.vnum 2), ("a", Value.vbool true)],
                        [("a", Value.vnum 1)]] [] :=
  ⟨by decide, deduplicate_keeps_first_occurrences _ (by decide)⟩

/-- Claim C2: whenever `sort_by_key` succeeds, its output is a permutation of
the input, sorted ascending by the value at the sort key (`recLe`), the sort
is stable (for every sort-key value, the records carrying a Python-equal value
appear exactly as in the input), and a record lacking the key sorts as if its
value were the empty string. -/
theorem sort_by_key_stable_ascending (k : String) (b l : Batch)
    (h : sortByKey k b = .ok l) :
    List.Perm l b ∧
    l.Pairwise (fun r s => recLe k r s = true) ∧
    (∀ v : Value,
      l.filter (fun r => decide (vkey (keyOf k r) = vkey v)) =
        b.filter (fun r => decide (vkey (keyOf k r) = vkey v))) ∧
    (∀ r : Record, k ∉ r.map Prod.fst → keyOf k r = Value.vstr "") := by
  obtain rfl := sortByKey_ok h
  refine ⟨List.mergeSort_perm b _, ?_, ?_, fun r hr => keyOf_of_not_mem hr⟩
  · exact List.sorted_mergeSort (fun x y z => recLe_trans k x y z) (recLe_total k) b
  · intro v
    refine mergeSort_filter_eq k b _ fun r s hr hs => ?_
    rw [decide_eq_true_eq] at hr hs
    rw [recLe]
    exact vle_of_vkey_eq (hr.trans hs.symm)

/-- Witness for C2 at a two-record batch whose sort-key values tie. -/
theorem sort_by_key_stable_ascending_witness :
    sortByKey "n" [[("n", Value.vnum 1), ("m", Value.vstr "x")], [("n", Value.vnum 1)]] =
      .ok [[("n", Value.vnum 1), ("m", Value.vstr "x")], [("n", Value.vnum 1)]] ∧
    (List.Perm [[("n", Value.vnum 1), ("m", Value.vstr "x")], [("n", Value.vnum 1)]]
        [[("n", Value.vnum 1), ("m", Value.vstr "x")], [("n", Value.vnum 1)]] ∧
      List.Pairwise (fun r s => recLe "n" r s = true)
        [[("n", Value.vnum 1), ("m", Value.vstr "x")], [("n", Value.vnum 1)]] ∧
      (∀ v : Value,
        List.filter (fun r => decide (vkey (keyOf "n" r) = vkey v))
            [[("n", Value.vnum 1), ("m", Value.vstr "x")], [("n", Value.vnum 1)]] =
          List.filter (fun r => decide (vkey (keyOf "n" r) = vkey v))
            [[("n", Value.vnum 1), ("m", Value.vstr "x")], [("n", Value.vnum 1)]]) ∧
      (∀ r : Record, "n" ∉ r.map Prod.fst → keyOf "n" r = Value.vstr "")) := by
  have h : sortByKey "n" [[("n", Value.vnum 1), ("m", Value.vstr "x")], [("n", Value.vnum 1)]] =
      .ok [[("n", Value.vnum 1), ("m", Value.vstr "x")], [("n", Value.vnum 1)]] := by
    rw [sortByKey, if_pos (by decide), List.mergeSort_of_sorted (by decide)]
  exact ⟨h, sort_by_key_stable_ascending "n" _ _ h⟩

/-- Claim C3: the spec's worked example — `["filter_null", "deduplicate"]` on
the three-record batch drops both Alice records at `filter_null` (their
`value` is null), leaving only the Bob record, with `original_count = 3` and
`result_count = 1`. -/
theorem example_filter_dedup_pipeline :
    transform_data
        ⟨[[("id", Value.vnum 1), ("name", Value.vstr "Alice"), ("value", Value.vnull)],
          [("id", Value.vnum 2), ("name", Value.vstr "Bob"), ("value", Value.vnum 100)],
          [("id", Value.vnum 1), ("name", Value.vstr "Alice"), ("value", Value.vnull)]],
         ["filter_null", "deduplicate"], none⟩ =
      .ok ⟨3, 1, ["filter_null", "deduplicate"],
           [[("id", Value.vnum 2), ("name", Value.vstr "Bob"), ("value", Value.vnum 100)]]⟩ := by
  decide

/-- Counterexample to C4 as literally stated: the operations list
`["sort_by_key", "bogus"]` with no sort key contains the unknown name
`"bogus"`, yet the pipeline's 400 error carries the missing-sort-key detail,
not a detail naming the unknown operation (the earlier operation fails
first). -/
theorem unknown_operation_counterexample :
    "bogus" ∈ (["sort_by_key", "bogus"] : List String) ∧
    isSupported "bogus" = false ∧
    transform_data ⟨[], ["sort_by_key", "bogus"], none⟩ =
      .error ⟨400, "sort_key parameter required for sort_by_key operation"⟩ ∧
    ("sort_key parameter required for sort_by_key operation" : String) ≠
      "Unknown operation: " ++ "bogus" :=
  ⟨by decide, by decide, rfl, by decide⟩

/-- Claim C4 (amended): whenever the operations list contains a name outside
the five supported operations, the pipeline fails with an HTTP 400 error and
returns no batch; and if every operation before that unknown name succeeds,
the error detail names the unknown operation and processing stops right
there — the operations after it are never applied. -/
theorem unknown_operation_rejected (req : DataTransformRequest) (op : String)
    (hmem : op ∈ req.operations) (hop : isSupported op = false) :
    (∃ e, transform_data req = .error e ∧ e.status = 400) ∧
    ∀ pre post b, req.operations = pre ++ op :: post →
      runOps req.sort_key pre req.data = .ok b →
      transform_data req = .error ⟨400, "Unknown operation: " ++ op⟩ := by
  constructor
  · obtain ⟨e, he, hs⟩ := runOps_unknown_mem req.data hmem hop
    exact ⟨e, transform_data_error he, hs⟩
  · intro pre post b hops hpre
    apply transform_data_error
    rw [hops, runOps_append, hpre]
    show runOps req.sort_key (op :: post) b = _
    rw [runOps_cons, applyOp_unsupported b hop]

/-- Witness for C4 at the one-element operations list `["bogus"]`. -/
theorem unknown_operation_rejected_witness :
    ((∃ e, transform_data ⟨[], ["bogus"], none⟩ = .error e ∧ e.status = 400) ∧
      ∀ pre post b, (["bogus"] : List String) = pre ++ "bogus" :: post →
        runOps none pre [] = .ok b →
        transform_data ⟨[], ["bogus"], none⟩ =
          .error ⟨400, "Unknown operation: " ++ "bogus"⟩) :=
  unknown_operation_rejected ⟨[], ["bogus"], none⟩ "bogus" (by decide) (by decide)

/-- Claim C5: a request whose operations contain `sort_by_key` but that
supplies no `sort_key` fails with an HTTP 400 error (never a 500-class one)
and returns no data. -/
theorem missing_sort_key_rejected (req : DataTransformRequest)
    (hmem : "sort_by_key" ∈ req.operations) (hsk : req.sort_key = none) :
    ∃ e, transform_data req = .error e ∧ e.status = 400 := by
  have hmiss : sortKeyMissing req.sort_key = true := by rw [hsk]; rfl
  obtain ⟨e, he, hs⟩ := runOps_sort_missing req.data hmem hmiss
  exact ⟨e, transform_data_error he, hs⟩

/-- Witness for C5. -/
theorem missing_sort_key_rejected_witness :
    ∃ e, transform_data ⟨[[("a", Value.vnum 1)]], ["sort_by_key"], none⟩ = .error e ∧
      e.status = 400 :=
  missing_sort_key_rejected ⟨[[("a", Value.vnum 1)]], ["sort_by_key"], none⟩ (by decide) rfl

/-- Claim C6: `deduplicate` is idempotent on every Batch and never lengthens
the Batch. -/
theorem deduplicate_idempotent_and_shrinking (b : Batch) :
    deduplicate (deduplicate b) = deduplicate b ∧ (deduplicate b).length ≤ b.length :=
  ⟨dedupAux_dedupAux b [], dedupAux_length b []⟩

/-- Claim C7: `filter_null` is idempotent on every Batch — the second pass
changes nothing. -/
theorem filter_null_idempotent (b : Batch) : filterNull (filterNull b) = filterNull b := by
  simp [filterNull, List.filter_filter]

/-- Claim C8: for every fetched response with a status code in 100–599, the
result envelope's `success` flag holds exactly when the status code is below
400. -/
theorem fetch_success_iff_status_lt_400 (url : String) (duration : Int)
    (resp : RawResponse) (_h1 : 100 ≤ resp.status_code) (_h2 : resp.status_code ≤ 599) :
    ((buildFetchResult url duration resp).success = true ↔ resp.status_code < 400) := by
  simp [buildFetchResult]

/-- Witness for C8 at status 503. -/
theorem fetch_success_iff_status_lt_400_witness :
    100 ≤ (503 : Nat) ∧ (503 : Nat) ≤ 599 ∧
    ((buildFetchResult "http://upstream" 1 ⟨503, [], "oops", none⟩).success = true ↔
      (503 : Nat) < 400) :=
  ⟨by decide, by decide,
    fetch_success_iff_status_lt_400 "http://upstream" 1 ⟨503, [], "oops", none⟩
      (by decide) (by decide)⟩

/-- Claim C9: supplying the empty string as `sort_key` behaves exactly as
supplying none at all — the whole pipeline result is identical, and in
particular a request using `sort_by_key` is rejected with HTTP 400. -/
theorem empty_sort_key_rejected_like_missing (req : DataTransformRequest)
    (hsk : req.sort_key = some "") :
    transform_data req = transform_data { req with sort_key := none } ∧
    ("sort_by_key" ∈ req.operations → ∃ e, transform_data req = .error e ∧ e.status = 400) := by
  constructor
  · rw [transform_data, transform_data, hsk, runOps_empty_key]
  · intro hmem
    have hmiss : sortKeyMissing req.sort_key = true := by rw [hsk]; rfl
    obtain ⟨e, he, hs⟩ := runOps_sort_missing req.data hmem hmiss
    exact ⟨e, transform_data_error he, hs⟩

/-- Witness for C9. -/
theorem empty_sort_key_rejected_like_missing_witness :
    (transform_data ⟨[[("a", Value.vnum 1)]], ["sort_by_key"], some ""⟩ =
        transform_data ⟨[[("a", Value.vnum 1)]], ["sort_by_key"], none⟩ ∧
      ("sort_by_key" ∈ (["sort_by_key"] : List String) →
        ∃ e, transform_data ⟨[[("a", Value.vnum 1)]], ["sort_by_key"], some ""⟩ = .error e ∧
          e.status = 400)) :=
  empty_sort_key_rejected_like_missing ⟨[[("a", Value.vnum 1)]], ["sort_by_key"], some ""⟩ rfl

/-- Claim C10: every successful transform reports `result_count` at most
`original_count`; no supported operation lengthens the Batch. -/
theorem result_count_le_original_count (req : DataTransformRequest)
    (resp : TransformResponse) (h : transform_data req = .ok resp) :
    resp.result_count ≤ resp.original_count := by
  rw [transform_data] at h
  cases hR : runOps req.sort_key req.operations req.data with
  | ok res =>
    rw [hR] at h
    cases Except.ok.inj h
    exact runOps_length hR
  | error e => rw [hR] at h; exact Except.noConfusion h

/-- Witness for C10. -/
theorem result_count_le_original_count_witness :
    transform_data ⟨[[("a", Value.vnull)]], ["filter_null"], none⟩ =
      .ok ⟨1, 0, ["filter_null"], []⟩ ∧
    (⟨1, 0, ["filter_null"], []⟩ : TransformResponse).result_count ≤
      (⟨1, 0, ["filter_null"], []⟩ : TransformResponse).original_count :=
  ⟨rfl, result_count_le_original_count ⟨[[("a", Value.vnull)]], ["filter_null"], none⟩
    ⟨1, 0, ["filter_null"], []⟩ rfl⟩

end AutomationStack
